import Mathlib

set_option maxHeartbeats 1000000

set_option maxRecDepth 8192

/-!
Verification development for the secure-registration-portal analysis client
(src/solve.py).  The script is a sequential nine-step pipeline
(SecureRegistrationClient.run) over a shared mutable key-value context
(self.ctx) and an HTTP session.  We embed the data model and every step as
pure Lean functions; network outcomes are an explicit oracle (World) so that
every server behaviour is quantified over.

Conventions of the embedding:
* JSON values reaching the context are modelled by the inductive Value
  (strings, integers, lists -- the shapes the claims exercise; JSON
  booleans, floats and null do not occur in any claim and are omitted).
* the Python dict self.ctx is an association list with unique keys,
  maintained by ctxSet (in-place replacement keeps the original position,
  as dict assignment does).
* a step returns a StepOutcome: success / failure are the boolean returns
  of the Python methods, crash marks an exception escaping the method
  (there is no try/except catching it), which aborts run() before the
  summary is printed.
* base64.b64decode, str.decode (UTF-8), int(), hashlib.sha256().hexdigest()
  are modelled byte-for-byte below.
-/

/-- A JSON-derived value stored in the session context. -/
inductive Value where
  | vStr (s : String)
  | vInt (n : Int)
  | vList (elems : List Value)

mutual

def decEqValue : (a b : Value) → Decidable (a = b)
  | .vStr s, .vStr t =>
      match decEq s t with
      | isTrue h => isTrue (by rw [h])
      | isFalse h => isFalse (by intro hh; cases hh; exact h rfl)
  | .vInt m, .vInt n =>
      match decEq m n with
      | isTrue h => isTrue (by rw [h])
      | isFalse h => isFalse (by intro hh; cases hh; exact h rfl)
  | .vList xs, .vList ys =>
      match decEqValueList xs ys with
      | isTrue h => isTrue (by rw [h])
      | isFalse h => isFalse (by intro hh; cases hh; exact h rfl)
  | .vStr _, .vInt _ => isFalse nofun
  | .vStr _, .vList _ => isFalse nofun
  | .vInt _, .vStr _ => isFalse nofun
  | .vInt _, .vList _ => isFalse nofun
  | .vList _, .vStr _ => isFalse nofun
  | .vList _, .vInt _ => isFalse nofun

def decEqValueList : (xs ys : List Value) → Decidable (xs = ys)
  | [], [] => isTrue rfl
  | [], _ :: _ => isFalse nofun
  | _ :: _, [] => isFalse nofun
  | x :: xs, y :: ys =>
      match decEqValue x y, decEqValueList xs ys with
      | isTrue h1, isTrue h2 => isTrue (by rw [h1, h2])
      | isFalse h1, _ => isFalse (by intro hh; cases hh; exact h1 rfl)
      | _, isFalse h2 => isFalse (by intro hh; cases hh; exact h2 rfl)

end

instance : DecidableEq Value := decEqValue

/-- The session context self.ctx: a string-keyed mapping built up by the steps. -/
abbrev Ctx := List (String × Value)

/-- Lookup of a key in the context (Python dict access / .get). -/
def ctxGet : Ctx → String → Option Value
  | [], _ => none
  | (k', v) :: rest, k => if k' = k then some v else ctxGet rest k

/-- Assignment ctx[k] = v: replace the first binding of k in place, else append
(Python dict assignment keeps the original insertion position of the key). -/
def ctxSet : Ctx → String → Value → Ctx
  | [], k, v => [(k, v)]
  | (k', v') :: rest, k, v =>
      if k' = k then (k, v) :: rest else (k', v') :: ctxSet rest k v

/-- The call self.ctx.update(data): assign every pair of data in order. -/
def ctxUpdate (ctx : Ctx) (data : List (String × Value)) : Ctx :=
  data.foldl (fun c kv => ctxSet c kv.1 kv.2) ctx

/-- The standard base64 alphabet. -/
def b64Alphabet : List Char :=
  "ABCDEFGHIJKLMNOPQRSTUVWXYZabcdefghijklmnopqrstuvwxyz0123456789+/".data

/-- The character for a 6-bit group. -/
def b64Char (n : Nat) : Char := b64Alphabet.getD n 'A'

/-- The 6-bit value of an alphabet character, none outside the alphabet. -/
def b64Val (c : Char) : Option Nat :=
  if 65 ≤ c.toNat ∧ c.toNat ≤ 90 then some (c.toNat - 65)
  else if 97 ≤ c.toNat ∧ c.toNat ≤ 122 then some (c.toNat - 71)
  else if 48 ≤ c.toNat ∧ c.toNat ≤ 57 then some (c.toNat + 4)
  else if c = '+' then some 62
  else if c = '/' then some 63
  else none

/-- Membership in the base64 alphabet. -/
def isB64Char (c : Char) : Bool := (b64Val c).isSome

/-- Standard base64 encoding of a byte list, with '=' padding. -/
def b64Encode : List Nat → List Char
  | [] => []
  | [a] => [b64Char (a / 4), b64Char (a % 4 * 16), '=', '=']
  | [a, b] => [b64Char (a / 4), b64Char (a % 4 * 16 + b / 16), b64Char (b % 16 * 4), '=']
  | a :: b :: c :: rest =>
      b64Char (a / 4) :: b64Char (a % 4 * 16 + b / 16) ::
        b64Char (b % 16 * 4 + c / 64) :: b64Char (c % 64) :: b64Encode rest

/-- Quartet-wise base64 decoding, as binascii.a2b_base64 performs after the
alphabet filter: data characters in groups of four, '=' closing a group one
or two characters early; a leftover group of one to three characters (the
Incorrect padding error) or a misplaced '=' decodes to none. -/
def b64DecodeQuartets : List Char → Option (List Nat)
  | [] => some []
  | [_] => none
  | [_, _] => none
  | [_, _, _] => none
  | c1 :: c2 :: c3 :: c4 :: rest =>
      match b64Val c1, b64Val c2 with
      | some v1, some v2 =>
          if c3 = '=' then
            if c4 = '=' then
              (b64DecodeQuartets rest).map (fun t => (v1 * 4 + v2 / 16) :: t)
            else none
          else
            match b64Val c3 with
            | some v3 =>
                if c4 = '=' then
                  (b64DecodeQuartets rest).map
                    (fun t => (v1 * 4 + v2 / 16) :: (v2 % 16 * 16 + v3 / 4) :: t)
                else
                  match b64Val c4 with
                  | some v4 =>
                      (b64DecodeQuartets rest).map
                        (fun t => (v1 * 4 + v2 / 16) :: (v2 % 16 * 16 + v3 / 4) ::
                          (v3 % 4 * 64 + v4) :: t)
                  | none => none
            | none => none
      | _, _ => none

/-- Python base64.b64decode on a str argument: the str is ASCII-encoded
(raising on non-ASCII input), characters outside the alphabet are discarded,
then the quartets are decoded. -/
def pyB64DecodeBytes (s : String) : Option (List Nat) :=
  if s.data.all (fun c => c.toNat < 128) then
    b64DecodeQuartets (s.data.filter (fun c => isB64Char c || c == '='))
  else none

/-- The base64 text the server stores a byte string under. -/
def pyB64Encode (bs : List Nat) : String := String.mk (b64Encode bs)

/-- UTF-8 encoding of one character. -/
def utf8EncodeChar (c : Char) : List Nat :=
  if c.toNat < 128 then [c.toNat]
  else if c.toNat < 2048 then [192 + c.toNat / 64, 128 + c.toNat % 64]
  else if c.toNat < 65536 then
    [224 + c.toNat / 4096, 128 + c.toNat / 64 % 64, 128 + c.toNat % 64]
  else
    [240 + c.toNat / 262144, 128 + c.toNat / 4096 % 64, 128 + c.toNat / 64 % 64,
      128 + c.toNat % 64]

/-- Python str.encode(): UTF-8 bytes of the text. -/
def utf8Encode (s : String) : List Nat :=
  s.data.foldr (fun c acc => utf8EncodeChar c ++ acc) []

/-- Whether a byte is a UTF-8 continuation byte. -/
def utf8Cont (b : Nat) : Bool := 128 ≤ b && b < 192

/-- Decoding of one UTF-8 code point: first byte, following bytes; returns the
decoded character and the remaining bytes, rejecting truncated sequences,
stray continuation bytes, overlong forms and surrogates. -/
def utf8DecodeOne (b : Nat) (bs : List Nat) : Option (Char × List Nat) :=
  if b < 128 then some (Char.ofNat b, bs)
  else if b < 194 then none
  else if b < 224 then
    match bs with
    | b2 :: bs' =>
        if utf8Cont b2 then some (Char.ofNat ((b - 192) * 64 + (b2 - 128)), bs')
        else none
    | [] => none
  else if b < 240 then
    match bs with
    | b2 :: b3 :: bs' =>
        if utf8Cont b2 && utf8Cont b3 && (b ≠ 224 || 160 ≤ b2) &&
            (b ≠ 237 || b2 < 160) then
          some (Char.ofNat ((b - 224) * 4096 + (b2 - 128) * 64 + (b3 - 128)), bs')
        else none
    | _ => none
  else if b < 245 then
    match bs with
    | b2 :: b3 :: b4 :: bs' =>
        if utf8Cont b2 && utf8Cont b3 && utf8Cont b4 && (b ≠ 240 || 144 ≤ b2) &&
            (b ≠ 244 || b2 < 144) then
          some (Char.ofNat ((b - 240) * 262144 + (b2 - 128) * 4096 +
            (b3 - 128) * 64 + (b4 - 128)), bs')
        else none
    | _ => none
  else none

/-- The decoding loop, with fuel bounding the number of code points; one code
point consumes at least one byte, so the byte count is always enough fuel. -/
def utf8DecodeAux : Nat → List Nat → Option (List Char)
  | _, [] => some []
  | 0, _ :: _ => none
  | fuel + 1, b :: bs =>
      match utf8DecodeOne b bs with
      | some (c, rest) => (utf8DecodeAux fuel rest).map (fun cs => c :: cs)
      | none => none

/-- Python bytes.decode(): strict UTF-8 decoding of a byte list. -/
def utf8Decode (bs : List Nat) : Option (List Char) := utf8DecodeAux bs.length bs

/-- Python bytes.decode() producing a str. -/
def utf8DecodeStr (bs : List Nat) : Option String :=
  (utf8Decode bs).map (fun cs => String.mk cs)

/-- The decimal digit character for a value below ten. -/
def decDigit : Nat → Char
  | 0 => '0' | 1 => '1' | 2 => '2' | 3 => '3' | 4 => '4'
  | 5 => '5' | 6 => '6' | 7 => '7' | 8 => '8' | _ => '9'

/-- Digit-producing loop with fuel (the value is always below the fuel, and
dividing by ten strictly shrinks a value of ten or more). -/
def decReprAux : Nat → Nat → List Char
  | 0, _ => []
  | fuel + 1, n =>
      if n < 10 then [decDigit n]
      else decReprAux fuel (n / 10) ++ [decDigit (n % 10)]

/-- Decimal rendering of a natural number, most significant digit first. -/
def decReprList (n : Nat) : List Char := decReprAux (n + 1) n

/-- Decimal rendering as text (what the server base64-encodes). -/
def decRepr (n : Nat) : String := String.mk (decReprList n)

/-- Whether a character is a decimal digit. -/
def isDigitChar (c : Char) : Bool := 48 ≤ c.toNat && c.toNat ≤ 57

/-- Numeric value of a digit string, most significant first. -/
def digitsVal (ds : List Char) : Nat := ds.foldl (fun a c => a * 10 + (c.toNat - 48)) 0

/-- Parsing of an unsigned run of decimal digits, none if empty or non-digit. -/
def parseDigits (ds : List Char) : Option Nat :=
  if ds ≠ [] ∧ ds.all isDigitChar then some (digitsVal ds) else none

/-- Whether a character is whitespace stripped by int() (the common ASCII
whitespace; the exotic Unicode space classes never occur in the protocol). -/
def isPyWs (c : Char) : Bool :=
  c.toNat = 32 || c.toNat = 9 || c.toNat = 10 || c.toNat = 13 || c.toNat = 11 || c.toNat = 12

/-- Python int(str): strip whitespace, allow one sign, then decimal digits;
anything else raises ValueError (none).  Underscore digit separators, which
Python tolerates between digits, are not modelled; no claim involves them. -/
def pyParseIntTrimmed : List Char → Option Int
  | [] => none
  | c :: ds =>
      if c.toNat = 43 then Option.map (fun m : Nat => (m : Int)) (parseDigits ds)
      else if c.toNat = 45 then Option.map (fun m : Nat => -(m : Int)) (parseDigits ds)
      else Option.map (fun m : Nat => (m : Int)) (parseDigits (c :: ds))

def pyParseInt (s : String) : Option Int :=
  pyParseIntTrimmed (((s.data.dropWhile isPyWs).reverse.dropWhile isPyWs).reverse)

/-- The expression int(base64.b64decode(x).decode()) applied to a context
value: only a str can be base64-decoded (any other type raises), then the
bytes are UTF-8 decoded and parsed as a decimal integer. -/
def pyIntOfB64 (v : Value) : Option Int :=
  match v with
  | .vStr s => (pyB64DecodeBytes s).bind (fun bs => (utf8DecodeStr bs).bind pyParseInt)
  | _ => none

/-- The base64 text of a string value, as the server issues the puzzle inputs. -/
def pyB64EncodeStr (s : String) : String := pyB64Encode (utf8Encode s)

/-- Truncation to a 32-bit word. -/
def w32 (n : Nat) : Nat := n % 4294967296

/-- Right rotation of a 32-bit word. -/
def rotr32 (k x : Nat) : Nat := (x >>> k) ||| (w32 (x <<< (32 - k)))

/-- The SHA-256 round constants. -/
def sha256K : List Nat :=
  [1116352408, 1899447441, 3049323471, 3921009573,
   961987163, 1508970993, 2453635748, 2870763221,
   3624381080, 310598401, 607225278, 1426881987,
   1925078388, 2162078206, 2614888103, 3248222580,
   3835390401, 4022224774, 264347078, 604807628,
   770255983, 1249150122, 1555081692, 1996064986,
   2554220882, 2821834349, 2952996808, 3210313671,
   3336571891, 3584528711, 113926993, 338241895,
   666307205, 773529912, 1294757372, 1396182291,
   1695183700, 1986661051, 2177026350, 2456956037,
   2730485921, 2820302411, 3259730800, 3345764771,
   3516065817, 3600352804, 4094571909, 275423344,
   430227734, 506948616, 659060556, 883997877,
   958139571, 1322822218, 1537002063, 1747873779,
   1955562222, 2024104815, 2227730452, 2361852424,
   2428436474, 2756734187, 3204031479, 3329325298]

/-- The SHA-256 initial hash words. -/
def sha256H0 : List Nat :=
  [1779033703, 3144134277, 1013904242, 2773480762,
   1359893119, 2600822924, 528734635, 1541459225]

/-- Big-endian packing of bytes into 32-bit words. -/
def bytesToWords : List Nat → List Nat
  | b1 :: b2 :: b3 :: b4 :: rest =>
      (b1 * 16777216 + b2 * 65536 + b3 * 256 + b4) :: bytesToWords rest
  | _ => []

/-- Big-endian 8-byte rendering of the bit length. -/
def lengthBytes64 (n : Nat) : List Nat :=
  [n / 72057594037927936 % 256, n / 281474976710656 % 256, n / 1099511627776 % 256,
   n / 4294967296 % 256, n / 16777216 % 256, n / 65536 % 256, n / 256 % 256, n % 256]

/-- SHA-256 message padding: one 0x80 byte, zeros to 56 mod 64, the bit length. -/
def sha256Pad (ms : List Nat) : List Nat :=
  ms ++ [128] ++ List.replicate ((119 - ms.length % 64) % 64) 0 ++
    lengthBytes64 (8 * ms.length)

/-- Extension of the message schedule by the given number of words. -/
def sha256Extend : List Nat → Nat → List Nat
  | ws, 0 => ws
  | ws, n + 1 =>
      sha256Extend (ws ++ [w32 (ws.getD (ws.length - 16) 0 +
        (rotr32 7 (ws.getD (ws.length - 15) 0) ^^^ rotr32 18 (ws.getD (ws.length - 15) 0) ^^^
          (ws.getD (ws.length - 15) 0 >>> 3)) +
        ws.getD (ws.length - 7) 0 +
        (rotr32 17 (ws.getD (ws.length - 2) 0) ^^^ rotr32 19 (ws.getD (ws.length - 2) 0) ^^^
          (ws.getD (ws.length - 2) 0 >>> 10)))]) n

/-- One SHA-256 compression round on the state [a,b,c,d,e,f,g,h]. -/
def sha256Round (st : List Nat) (ki wi : Nat) : List Nat :=
  match st with
  | [a, b, c, d, e, f, g, h] =>
      let s1 := rotr32 6 e ^^^ rotr32 11 e ^^^ rotr32 25 e
      let ch := (e &&& f) ^^^ ((e ^^^ 4294967295) &&& g)
      let t1 := w32 (h + s1 + ch + ki + wi)
      let s0 := rotr32 2 a ^^^ rotr32 13 a ^^^ rotr32 22 a
      let mj := (a &&& b) ^^^ (a &&& c) ^^^ (b &&& c)
      let t2 := w32 (s0 + mj)
      [w32 (t1 + t2), a, b, c, w32 (d + t1), e, f, g]
  | other => other

/-- Compression of one 64-byte block into the running hash. -/
def sha256Compress (hs : List Nat) (block : List Nat) : List Nat :=
  let ws := sha256Extend (bytesToWords block) 48
  let st := (sha256K.zip ws).foldl (fun st kw => sha256Round st kw.1 kw.2) hs
  List.zipWith (fun x y => w32 (x + y)) hs st

/-- Splitting a padded message into 64-byte blocks. -/
def chunks64 : List Nat → List (List Nat)
  | [] => []
  | b :: rest => ((b :: rest).take 64) :: chunks64 ((b :: rest).drop 64)
termination_by l => l.length
decreasing_by simp [List.length_drop]; omega

/-- The eight 32-bit hash words of a byte message. -/
def sha256Words (ms : List Nat) : List Nat :=
  (chunks64 (sha256Pad ms)).foldl sha256Compress sha256H0

/-- Lowercase hexadecimal character of a nibble. -/
def hexChar (d : Nat) : Char :=
  if d < 10 then Char.ofNat (48 + d) else Char.ofNat (87 + d)

/-- Eight lowercase hex characters of one 32-bit word. -/
def wordHex (w : Nat) : List Char :=
  [hexChar (w / 268435456 % 16), hexChar (w / 16777216 % 16), hexChar (w / 1048576 % 16),
   hexChar (w / 65536 % 16), hexChar (w / 4096 % 16), hexChar (w / 256 % 16),
   hexChar (w / 16 % 16), hexChar (w % 16)]

/-- hashlib.sha256(ms).hexdigest(): the 64-character lowercase hex digest. -/
def sha256Hexdigest (ms : List Nat) : String :=
  String.mk ((sha256Words ms).foldr (fun w acc => wordHex w ++ acc) [])

/-- The expression hashlib.sha256(h.encode()).hexdigest() on a text h. -/
def sha256HexOfString (s : String) : String := sha256Hexdigest (utf8Encode s)

/-- Outcome of one step method: the boolean it returns, or crash when an
exception escapes the method (no try/except around the failing statement). -/
inductive StepOutcome where
  | success
  | failure
  | crash
deriving DecidableEq, Repr

/-- Transport outcome of a fire-and-forget request. -/
inductive NetOutcome where
  | ok
  | exn
deriving DecidableEq, Repr

/-- A decoded JSON response body as r.json() hands it to the step: either a
JSON object (a dict) or any non-object JSON value (string, number or array),
which is just as possible on a 200 response and is what trips step_init and
step_device_check.  JSON booleans and null never occur in any claim: null is
falsy like None, and both are omitted with the other unused shapes of Value. -/
inductive JsonBody where
  | obj (fields : List (String × Value))
  | notObj (v : Value)
deriving DecidableEq

/-- Python truthiness of a decoded body, as tested by if not data and
if not result: empty object, empty string, zero and empty array are falsy. -/
def jsonTruthy : JsonBody → Bool
  | .obj fields => !fields.isEmpty
  | .notObj (.vStr s) => !s.isEmpty
  | .notObj (.vInt n) => n != 0
  | .notObj (.vList l) => !l.isEmpty

/-- The network oracle for one run: what the server (or the transport layer)
answers on each endpoint.  A response of none models a transport error, a
non-2xx status or an unparseable body (the _get and _post helpers turn all of
those into None); a some carries the decoded JSON body, object or not. -/
structure World where
  traceOutcome : NetOutcome
  initResponse : Option JsonBody
  devCheckResponse : Option JsonBody
  heartbeatStatus : Option Nat
deriving DecidableEq

/-- A step method: reads the oracle and the shared context, returns its
outcome and the context it leaves behind. -/
abbrev StepFn := World → Ctx → StepOutcome × Ctx

/-- Step 1 of solve.py (step_trace): posts telemetry, returns True from both
the try branch and the bare except branch. -/
def step_trace : StepFn := fun w ctx =>
  match w.traceOutcome with
  | .ok => (.success, ctx)
  | .exn => (.success, ctx)

/-- Step 2 of solve.py (step_init): _get the init payload; a falsy result
(None, an empty object, or any falsy non-object body) returns False.  On a
truthy object, self.ctx.update(data) runs and the success log reads
self.ctx["session_id"], so an object without that key raises KeyError after
the context was already updated.  On a truthy non-object body, update(data)
itself raises before inserting anything: a string yields length-one update
elements (ValueError) and a number is not iterable (TypeError); an array
raises the same way unless every element is a two-element sequence -- that
corner, where Python would insert pairs (possibly with non-string keys,
beyond the string-keyed context), is modelled as the same crash and lies
outside every claim. -/
def step_init : StepFn := fun w ctx =>
  match w.initResponse with
  | none => (.failure, ctx)
  | some body =>
      if jsonTruthy body = false then (.failure, ctx)
      else
        match body with
        | .obj data =>
            match ctxGet (ctxUpdate ctx data) "session_id" with
            | some _ => (.success, ctxUpdate ctx data)
            | none => (.crash, ctxUpdate ctx data)
        | .notObj _ => (.crash, ctx)

/-- Step 3 of solve.py (step_solve_math): decode the three base64 integers
from the context and store ((c1 * c2) + c3) % 1000; every exception in the
body (missing key, bad base64, bad int) is caught and turns into False,
before any assignment to the context. -/
def step_solve_math : StepFn := fun _ ctx =>
  match (ctxGet ctx "c1").bind pyIntOfB64, (ctxGet ctx "c2").bind pyIntOfB64,
      (ctxGet ctx "c3").bind pyIntOfB64 with
  | some c1, some c2, some c3 =>
      (.success, ctxSet ctx "math_proof" (.vInt ((c1 * c2 + c3) % 1000)))
  | _, _, _ => (.failure, ctx)

/-- The canvas fingerprint constant of step 4. -/
def canvasFpHex : String := sha256Hexdigest (utf8Encode "canvas-fingerprint-seed")

/-- Step 4 of solve.py (step_generate_fingerprints): store the three fixed
device-identity fields and return True. -/
def step_generate_fingerprints : StepFn := fun _ ctx =>
  (.success,
    ctxSet (ctxSet (ctxSet ctx "webgl_vendor" (.vStr "Intel Inc."))
        "webgl_renderer" (.vStr "Intel Iris OpenGL Engine"))
      "canvas_fp" (.vStr canvasFpHex))

/-- Step 5 of solve.py (step_device_check): the payload literal reads five
context keys with no try/except, so a missing key raises KeyError out of the
method; _post turns every network or HTTP error into None, and a falsy body
(None, empty object, or any falsy value) returns False; on a truthy object
result.get("v_token", "") is stored leniently; on a truthy non-object body
(a string, number or array on a 200 response), result.get raises
AttributeError out of the method, with the context untouched. -/
def step_device_check : StepFn := fun w ctx =>
  match ctxGet ctx "webgl_vendor", ctxGet ctx "webgl_renderer",
      ctxGet ctx "request_token", ctxGet ctx "math_proof", ctxGet ctx "canvas_fp" with
  | some _, some _, some _, some _, some _ =>
      match w.devCheckResponse with
      | none => (.failure, ctx)
      | some body =>
          if jsonTruthy body = false then (.failure, ctx)
          else
            match body with
            | .obj result =>
                (.success, ctxSet ctx "v_token" ((ctxGet result "v_token").getD (.vStr "")))
            | .notObj _ => (.crash, ctx)
  | _, _, _, _, _ => (.crash, ctx)

/-- Step 6 of solve.py (step_heartbeat): GET; True exactly when the status is
200, any exception is caught and returns False; the context is never touched. -/
def step_heartbeat : StepFn := fun w ctx =>
  match w.heartbeatStatus with
  | some code => (if code = 200 then .success else .failure, ctx)
  | none => (.failure, ctx)

/-- Step 7 of solve.py (step_solve_sequence): decode every element of
ctx["seq"] as a base64 integer and store seq[-1] + seq[-2]; a missing key, a
non-list value (iterating an int raises, and every string iterates into
single characters none of which is a valid base64 quantum), a bad element or
fewer than two elements (IndexError from seq[-2]) all raise inside the try
and return False before any assignment. -/
def decodeSeq : List Value → Option (List Int)
  | [] => some []
  | x :: xs => (pyIntOfB64 x).bind (fun n => (decodeSeq xs).map (fun ns => n :: ns))

def step_solve_sequence : StepFn := fun _ ctx =>
  match ctxGet ctx "seq" with
  | some (.vList xs) =>
      match decodeSeq xs with
      | some seq =>
          if 2 ≤ seq.length then
            (.success, ctxSet ctx "seq_proof"
              (.vInt (seq.getD (seq.length - 1) 0 + seq.getD (seq.length - 2) 0)))
          else (.failure, ctx)
      | none => (.failure, ctx)
  | some _ => (.failure, ctx)
  | none => (.failure, ctx)

/-- The hash-chain loop of step 8: iterate h = sha256(h.encode()).hexdigest(). -/
def hashChainIter : Nat → String → String
  | 0, h => h
  | n + 1, h => hashChainIter n (sha256HexOfString h)

/-- Whether the Python slice h[:32] in the success log of step 8 is defined:
str and list support slicing, int raises TypeError. -/
def sliceableValue : Value → Bool
  | .vStr _ => true
  | .vList _ => true
  | .vInt _ => false

/-- Step 8 of solve.py (step_solve_hash_chain): h = ctx["hc_s"], then
range(ctx["hc_i"]) iterations of the hash.  A missing key or a non-integer
count raises before any write and returns False.  With a non-positive count
the loop body never runs, ctx["hash_proof"] = h is stored, and then the
success log slices h[:32]: on an unsliceable seed that raises after the
store, so the step returns False with the context already mutated.  With a
positive count a non-string seed raises at h.encode() before any write. -/
def step_solve_hash_chain : StepFn := fun _ ctx =>
  match ctxGet ctx "hc_s", ctxGet ctx "hc_i" with
  | some v, some (.vInt n) =>
      if n ≤ 0 then
        (if sliceableValue v then .success else .failure, ctxSet ctx "hash_proof" v)
      else
        match v with
        | .vStr s => (.success, ctxSet ctx "hash_proof" (.vStr (hashChainIter n.toNat s)))
        | _ => (.failure, ctx)
  | _, _ => (.failure, ctx)

/-- Step 9 of solve.py (step_crypto_boundary): prints the boundary banner and
returns False unconditionally. -/
def step_crypto_boundary : StepFn := fun _ ctx => (.failure, ctx)

/-- The fixed step list of run(), in source order. -/
def pipelineSteps : List (String × StepFn) :=
  [("Trace", step_trace),
   ("Init", step_init),
   ("Math Challenge", step_solve_math),
   ("Fingerprints", step_generate_fingerprints),
   ("Device Check", step_device_check),
   ("Heartbeat", step_heartbeat),
   ("Sequence Proof", step_solve_sequence),
   ("Hash Chain", step_solve_hash_chain),
   ("Crypto Boundary", step_crypto_boundary)]

/-- Observable record of one run: the names of the steps whose method was
invoked, their outcomes, the completed count reported by the summary, and
whether run() terminated cleanly (False when an exception escaped a step and
aborted run() before print_summary). -/
structure RunLog where
  executed : List String
  outcomes : List StepOutcome
  completed : Nat
  cleanExit : Bool
deriving DecidableEq, Repr

/-- The loop of run(): invoke each step in order; count successes; a False
return breaks out (then the summary prints the count); an escaping exception
aborts the whole run. -/
def runFrom (w : World) : List (String × StepFn) → Ctx → Nat → RunLog
  | [], _, completed => ⟨[], [], completed, true⟩
  | (name, f) :: rest, ctx, completed =>
      match f w ctx with
      | (.success, ctx') =>
          let L := runFrom w rest ctx' (completed + 1)
          ⟨name :: L.executed, .success :: L.outcomes, L.completed, L.cleanExit⟩
      | (.failure, _) => ⟨[name], [.failure], completed, true⟩
      | (.crash, _) => ⟨[name], [.crash], completed, false⟩

/-- SecureRegistrationClient.run(): the nine steps from an empty context. -/
def run (w : World) : RunLog := runFrom w pipelineSteps [] 0

/-- Arbitrary network oracle used for step-level witnesses: steps under
scrutiny here never consult the parts a claim does not fix. -/
def wOffline : World :=
  { traceOutcome := .exn, initResponse := none, devCheckResponse := none,
    heartbeatStatus := none }

def ctxHashZero : Ctx := [("hc_s", .vStr "seed"), ("hc_i", .vInt 0)]

def ctxMath : Ctx := [("c1", .vStr "Mg=="), ("c2", .vStr "Mw=="), ("c3", .vStr "OA==")]

def ctxSeqTwo : Ctx := [("seq", .vList [.vStr "MQ==", .vStr "Mg=="])]

def ctxSeqOne : Ctx := [("seq", .vList [.vStr "MQ=="])]

/-- A world whose device-check response is a transport failure while
everything before succeeds: Trace, Init, Math Challenge and Fingerprints
succeed, Device Check fails. -/
def wDevFail : World :=
  { traceOutcome := .ok,
    initResponse := some (.obj [("session_id", .vStr "s"), ("c1", .vStr "Mg=="),
      ("c2", .vStr "Mw=="), ("c3", .vStr "OA=="), ("request_token", .vStr "tok")]),
    devCheckResponse := none,
    heartbeatStatus := some 200 }

/-- A world on which every step before the crypto boundary succeeds. -/
def wAllOk : World :=
  { traceOutcome := .ok,
    initResponse := some (.obj [("session_id", .vStr "s"), ("c1", .vStr "Mg=="),
      ("c2", .vStr "Mw=="), ("c3", .vStr "OA=="), ("request_token", .vStr "tok"),
      ("seq", .vList [.vStr "MQ==", .vStr "Mg=="]), ("hc_s", .vStr "seed"),
      ("hc_i", .vInt 0)]),
    devCheckResponse := some (.obj [("v_token", .vStr "v")]),
    heartbeatStatus := some 200 }

/-- A context whose hash-chain inputs are an integer seed and a zero count. -/
def ctxHashQuirk : Ctx := [("hc_s", .vInt 0), ("hc_i", .vInt 0)]

/-- A world whose init response is a non-empty object lacking session_id. -/
def wNoSession : World :=
  { traceOutcome := .ok, initResponse := some (.obj [("puzzle", .vStr "x")]),
    devCheckResponse := none, heartbeatStatus := none }

/-- A world whose device-check endpoint answers 200 with the JSON array [1]:
a truthy body that is not an object, on which result.get raises. -/
def wListBody : World :=
  { traceOutcome := .ok,
    initResponse := some (.obj [("session_id", .vStr "s"), ("c1", .vStr "Mg=="),
      ("c2", .vStr "Mw=="), ("c3", .vStr "OA=="), ("request_token", .vStr "tok")]),
    devCheckResponse := some (.notObj (.vList [.vInt 1])),
    heartbeatStatus := some 200 }

theorem step_trace_eq (w : World) (ctx : Ctx) : step_trace w ctx = (.success, ctx) := by
  cases htr : w.traceOutcome <;> simp [step_trace, htr]

theorem ctxGet_ctxSet (ctx : Ctx) (k k' : String) (v : Value) :
    ctxGet (ctxSet ctx k' v) k = if k' = k then some v else ctxGet ctx k := by
  induction ctx with
  | nil => by_cases h : k' = k <;> simp [ctxSet, ctxGet, h]
  | cons p rest ih =>
      obtain ⟨k₀, v₀⟩ := p
      by_cases h0 : k₀ = k'
      · subst h0
        by_cases h : k₀ = k <;> simp [ctxSet, ctxGet, h]
      · by_cases h1 : k₀ = k
        · subst h1
          have hk : ¬ k' = k₀ := fun hh => h0 hh.symm
          simp [ctxSet, ctxGet, h0, hk]
        · simp [ctxSet, ctxGet, h0, h1, ih]

theorem ctxGet_ctxSet_self (ctx : Ctx) (k : String) (v : Value) :
    ctxGet (ctxSet ctx k v) k = some v := by
  simp [ctxGet_ctxSet]

theorem ctxGet_ctxSet_ne (ctx : Ctx) (k k' : String) (v : Value) (h : k' ≠ k) :
    ctxGet (ctxSet ctx k' v) k = ctxGet ctx k := by
  simp [ctxGet_ctxSet, h]

theorem ctxSet_isSome (ctx : Ctx) (k k' : String) (v : Value)
    (h : (ctxGet ctx k).isSome) : (ctxGet (ctxSet ctx k' v) k).isSome := by
  rw [ctxGet_ctxSet]
  by_cases hk : k' = k <;> simp [hk, h]

theorem ctxUpdate_isSome_mono (data : List (String × Value)) :
    ∀ (ctx : Ctx) (key : String), (ctxGet ctx key).isSome →
      (ctxGet (ctxUpdate ctx data) key).isSome := by
  induction data with
  | nil => intro ctx key h; exact h
  | cons p rest ih =>
      intro ctx key h
      exact ih _ _ (ctxSet_isSome _ _ _ _ h)

theorem ctxUpdate_isSome_of_key (data : List (String × Value)) :
    ∀ (ctx : Ctx) (key : String), (ctxGet data key).isSome →
      (ctxGet (ctxUpdate ctx data) key).isSome := by
  induction data with
  | nil => intro ctx key h; simp [ctxGet] at h
  | cons p rest ih =>
      intro ctx key h
      obtain ⟨k₀, v₀⟩ := p
      show (ctxGet (ctxUpdate (ctxSet ctx k₀ v₀) rest) key).isSome
      by_cases hk : k₀ = key
      · subst hk
        by_cases hr : (ctxGet rest k₀).isSome
        · exact ih _ _ hr
        · refine ctxUpdate_isSome_mono rest _ k₀ ?_
          rw [ctxGet_ctxSet_self]; rfl
      · refine ih _ _ ?_
        simpa [ctxGet, hk] using h

theorem b64Val_b64Char : ∀ n < 64, b64Val (b64Char n) = some n := by decide

theorem b64Char_spec : ∀ n < 64,
    (isB64Char (b64Char n) || b64Char n == '=') = true ∧
      b64Char n ≠ '=' ∧ (b64Char n).toNat < 128 := by
  decide

theorem b64DecodeQuartets_b64Encode :
    ∀ (bs : List Nat), (∀ b ∈ bs, b < 256) →
      b64DecodeQuartets (b64Encode bs) = some bs
  | [], _ => by simp [b64Encode, b64DecodeQuartets]
  | [a], h => by
      have ha : a < 256 := h a (by simp)
      have h1 := b64Val_b64Char (a / 4) (by omega)
      have h2 := b64Val_b64Char (a % 4 * 16) (by omega)
      have e1 : a / 4 * 4 + a % 4 * 16 / 16 = a := by omega
      simp only [b64Encode, b64DecodeQuartets, h1, h2, if_pos rfl, Option.map_some', e1]
      simp
  | [a, b], h => by
      have ha : a < 256 := h a (by simp)
      have hb : b < 256 := h b (by simp)
      have h1 := b64Val_b64Char (a / 4) (by omega)
      have h2 := b64Val_b64Char (a % 4 * 16 + b / 16) (by omega)
      have h3 := b64Val_b64Char (b % 16 * 4) (by omega)
      have hne := (b64Char_spec (b % 16 * 4) (by omega)).2.1
      have e1 : a / 4 * 4 + (a % 4 * 16 + b / 16) / 16 = a := by omega
      have e2 : (a % 4 * 16 + b / 16) % 16 * 16 + b % 16 * 4 / 4 = b := by omega
      simp only [b64Encode, b64DecodeQuartets, h1, h2, h3, if_neg hne, if_pos rfl,
        Option.map_some', e1, e2]
      simp
  | a :: b :: c :: rest, h => by
      have ha : a < 256 := h a (by simp)
      have hb : b < 256 := h b (by simp)
      have hc : c < 256 := h c (by simp)
      have h1 := b64Val_b64Char (a / 4) (by omega)
      have h2 := b64Val_b64Char (a % 4 * 16 + b / 16) (by omega)
      have h3 := b64Val_b64Char (b % 16 * 4 + c / 64) (by omega)
      have h4 := b64Val_b64Char (c % 64) (by omega)
      have hne3 := (b64Char_spec (b % 16 * 4 + c / 64) (by omega)).2.1
      have hne4 := (b64Char_spec (c % 64) (by omega)).2.1
      have ih := b64DecodeQuartets_b64Encode rest
        (fun x hx => h x (by simp [hx]))
      have e1 : a / 4 * 4 + (a % 4 * 16 + b / 16) / 16 = a := by omega
      have e2 : (a % 4 * 16 + b / 16) % 16 * 16 + (b % 16 * 4 + c / 64) / 4 = b := by
        omega
      have e3 : (b % 16 * 4 + c / 64) % 4 * 64 + c % 64 = c := by omega
      simp only [b64Encode, b64DecodeQuartets, h1, h2, h3, h4, if_neg hne3, if_neg hne4,
        ih, Option.map_some', e1, e2, e3]

theorem b64Encode_mem :
    ∀ (bs : List Nat), (∀ b ∈ bs, b < 256) →
      ∀ ch ∈ b64Encode bs, (isB64Char ch || ch == '=') = true ∧ ch.toNat < 128
  | [], _ => by simp [b64Encode]
  | [a], h => by
      have ha : a < 256 := h a (by simp)
      have s1 := b64Char_spec (a / 4) (by omega)
      have s2 := b64Char_spec (a % 4 * 16) (by omega)
      intro ch hch
      simp only [b64Encode, List.mem_cons, List.not_mem_nil, or_false] at hch
      rcases hch with rfl | rfl | rfl | rfl
      · exact ⟨s1.1, s1.2.2⟩
      · exact ⟨s2.1, s2.2.2⟩
      · exact ⟨by decide, by decide⟩
      · exact ⟨by decide, by decide⟩
  | [a, b], h => by
      have ha : a < 256 := h a (by simp)
      have hb : b < 256 := h b (by simp)
      have s1 := b64Char_spec (a / 4) (by omega)
      have s2 := b64Char_spec (a % 4 * 16 + b / 16) (by omega)
      have s3 := b64Char_spec (b % 16 * 4) (by omega)
      intro ch hch
      simp only [b64Encode, List.mem_cons, List.not_mem_nil, or_false] at hch
      rcases hch with rfl | rfl | rfl | rfl
      · exact ⟨s1.1, s1.2.2⟩
      · exact ⟨s2.1, s2.2.2⟩
      · exact ⟨s3.1, s3.2.2⟩
      · exact ⟨by decide, by decide⟩
  | a :: b :: c :: rest, h => by
      have ha : a < 256 := h a (by simp)
      have hb : b < 256 := h b (by simp)
      have hc : c < 256 := h c (by simp)
      have s1 := b64Char_spec (a / 4) (by omega)
      have s2 := b64Char_spec (a % 4 * 16 + b / 16) (by omega)
      have s3 := b64Char_spec (b % 16 * 4 + c / 64) (by omega)
      have s4 := b64Char_spec (c % 64) (by omega)
      have ih := b64Encode_mem rest (fun x hx => h x (by simp [hx]))
      intro ch hch
      simp only [b64Encode, List.mem_cons] at hch
      rcases hch with rfl | rfl | rfl | rfl | hm
      · exact ⟨s1.1, s1.2.2⟩
      · exact ⟨s2.1, s2.2.2⟩
      · exact ⟨s3.1, s3.2.2⟩
      · exact ⟨s4.1, s4.2.2⟩
      · exact ih ch hm

theorem pyB64DecodeBytes_pyB64Encode (bs : List Nat) (h : ∀ b ∈ bs, b < 256) :
    pyB64DecodeBytes (pyB64Encode bs) = some bs := by
  have hmem := b64Encode_mem bs h
  have hall : (b64Encode bs).all (fun c => c.toNat < 128) = true := by
    rw [List.all_eq_true]
    intro c hch
    simpa using (hmem c hch).2
  have hfilter : (b64Encode bs).filter (fun c => isB64Char c || c == '=') = b64Encode bs := by
    rw [List.filter_eq_self]
    intro c hch
    exact (hmem c hch).1
  simp only [pyB64DecodeBytes, pyB64Encode, String.mk]
  rw [if_pos hall, hfilter]
  exact b64DecodeQuartets_b64Encode bs h

theorem utf8DecodeOne_length (b : Nat) (bs : List Nat) (c : Char) (rest : List Nat)
    (h : utf8DecodeOne b bs = some (c, rest)) : rest.length ≤ bs.length := by
  unfold utf8DecodeOne at h
  split at h
  · cases h; omega
  · split at h
    · cases h
    · split at h
      · split at h
        · split at h
          · cases h; simp
          · cases h
        · cases h
      · split at h
        · split at h
          · split at h
            · cases h; simp; omega
            · cases h
          · cases h
        · split at h
          · split at h
            · split at h
              · cases h; simp; omega
              · cases h
            · cases h
          · cases h

theorem utf8EncodeChar_lt_256 (c : Char) : ∀ b ∈ utf8EncodeChar c, b < 256 := by
  have hv : c.toNat < 1114112 := by
    rcases c.valid with h | ⟨_, h⟩
    · exact Nat.lt_trans h (by norm_num)
    · exact h
  intro b hb
  unfold utf8EncodeChar at hb
  by_cases h1 : c.toNat < 128
  · simp [h1] at hb
    omega
  · by_cases h2 : c.toNat < 2048
    · simp [h1, h2] at hb
      rcases hb with rfl | rfl <;> omega
    · by_cases h3 : c.toNat < 65536
      · simp [h1, h2, h3] at hb
        rcases hb with rfl | rfl | rfl <;> omega
      · simp [h1, h2, h3] at hb
        rcases hb with rfl | rfl | rfl | rfl <;> omega

theorem utf8Encode_lt_256 (s : String) : ∀ b ∈ utf8Encode s, b < 256 := by
  unfold utf8Encode
  induction s.data with
  | nil => simp
  | cons c cs ih =>
      intro b hb
      simp only [List.foldr_cons, List.mem_append] at hb
      rcases hb with hb | hb
      · exact utf8EncodeChar_lt_256 c b hb
      · exact ih b hb

theorem utf8DecodeAux_encode_ascii :
    ∀ (cs : List Char), (∀ c ∈ cs, c.toNat < 128) →
      ∀ fuel, (cs.foldr (fun c acc => utf8EncodeChar c ++ acc) []).length ≤ fuel →
        utf8DecodeAux fuel (cs.foldr (fun c acc => utf8EncodeChar c ++ acc) []) = some cs := by
  intro cs
  induction cs with
  | nil => intro _ fuel _; cases fuel <;> rfl
  | cons c rest ih =>
      intro h fuel hfuel
      have hc : c.toNat < 128 := h c (by simp)
      have hrest := ih (fun x hx => h x (by simp [hx]))
      simp only [List.foldr_cons] at hfuel ⊢
      rw [show utf8EncodeChar c = [c.toNat] by unfold utf8EncodeChar; rw [if_pos hc]] at hfuel ⊢
      simp only [List.cons_append, List.nil_append] at hfuel ⊢
      obtain ⟨f, rfl⟩ : ∃ f, fuel = f + 1 := by
        cases fuel
        · simp at hfuel
        · exact ⟨_, rfl⟩
      have hone : utf8DecodeOne c.toNat (List.foldr (fun c acc => utf8EncodeChar c ++ acc) [] rest) =
          some (Char.ofNat c.toNat, List.foldr (fun c acc => utf8EncodeChar c ++ acc) [] rest) := by
        unfold utf8DecodeOne
        rw [if_pos hc]
      rw [utf8DecodeAux, hone]
      simp only [List.length_cons] at hfuel
      simp [hrest f (by omega), Char.ofNat_toNat]

theorem utf8Decode_utf8Encode_ascii (cs : List Char) (h : ∀ c ∈ cs, c.toNat < 128) :
    utf8Decode (cs.foldr (fun c acc => utf8EncodeChar c ++ acc) []) = some cs :=
  utf8DecodeAux_encode_ascii cs h _ (Nat.le_refl _)

theorem decDigit_toNat (d : Nat) (h : d < 10) : (decDigit d).toNat = 48 + d := by
  interval_cases d <;> rfl

theorem decReprAux_digits :
    ∀ (fuel n : Nat), n < fuel →
      decReprAux fuel n ≠ [] ∧ ∀ c ∈ decReprAux fuel n, isDigitChar c = true := by
  intro fuel
  induction fuel with
  | zero => intro n h; omega
  | succ f ih =>
      intro n _
      by_cases h10 : n < 10
      · rw [decReprAux, if_pos h10]
        refine ⟨by simp, ?_⟩
        intro c hc
        simp only [List.mem_singleton] at hc
        subst hc
        simp [isDigitChar, decDigit_toNat n h10]
        omega
      · have hdiv : n / 10 < f := by
          have h1 : n / 10 < n := Nat.div_lt_self (by omega) (by omega)
          omega
        rw [decReprAux, if_neg h10]
        refine ⟨by simp, ?_⟩
        intro c hc
        rcases List.mem_append.mp hc with hc | hc
        · exact (ih (n / 10) hdiv).2 c hc
        · simp only [List.mem_singleton] at hc
          subst hc
          have hm : n % 10 < 10 := Nat.mod_lt _ (by omega)
          simp [isDigitChar, decDigit_toNat _ hm]
          omega

theorem decReprList_digits (n : Nat) :
    decReprList n ≠ [] ∧ ∀ c ∈ decReprList n, isDigitChar c = true :=
  decReprAux_digits (n + 1) n (by omega)

theorem digitsVal_append (ds : List Char) (c : Char) :
    digitsVal (ds ++ [c]) = digitsVal ds * 10 + (c.toNat - 48) := by
  simp [digitsVal, List.foldl_append]

theorem digitsVal_decReprAux :
    ∀ (fuel n : Nat), n < fuel → digitsVal (decReprAux fuel n) = n := by
  intro fuel
  induction fuel with
  | zero => intro n h; omega
  | succ f ih =>
      intro n _
      by_cases h10 : n < 10
      · rw [decReprAux, if_pos h10]
        simp [digitsVal, decDigit_toNat n h10]
      · have hdiv : n / 10 < f := by
          have h1 : n / 10 < n := Nat.div_lt_self (by omega) (by omega)
          omega
        rw [decReprAux, if_neg h10]
        rw [digitsVal_append, ih (n / 10) hdiv]
        have hm : n % 10 < 10 := Nat.mod_lt _ (by omega)
        rw [decDigit_toNat _ hm]
        omega

theorem digitsVal_decReprList (n : Nat) : digitsVal (decReprList n) = n :=
  digitsVal_decReprAux (n + 1) n (by omega)

theorem digit_not_ws (c : Char) (h : isDigitChar c = true) : isPyWs c = false := by
  simp only [isDigitChar, Bool.and_eq_true, decide_eq_true_eq] at h
  simp only [isPyWs, Bool.or_eq_false_iff, decide_eq_false_iff_not]
  omega

theorem pyParseInt_decRepr (n : Nat) : pyParseInt (decRepr n) = some (n : Int) := by
  obtain ⟨hne, hdig⟩ := decReprList_digits n
  have hdata : (decRepr n).data = decReprList n := rfl
  obtain ⟨c, ds, hcons⟩ := List.exists_cons_of_ne_nil hne
  have hws1 : (decReprList n).dropWhile isPyWs = decReprList n := by
    rw [hcons]
    rw [List.dropWhile_cons_of_neg]
    simp [digit_not_ws c (hdig c (by rw [hcons]; simp))]
  have hlast : (decReprList n).reverse ≠ [] := by simpa using hne
  obtain ⟨c', ds', hcons'⟩ := List.exists_cons_of_ne_nil hlast
  have hc'mem : c' ∈ decReprList n := by
    have : c' ∈ (decReprList n).reverse := by rw [hcons']; simp
    simpa using this
  have hws2 : (decReprList n).reverse.dropWhile isPyWs = (decReprList n).reverse := by
    rw [hcons']
    rw [List.dropWhile_cons_of_neg]
    simp [digit_not_ws c' (hdig c' hc'mem)]
  unfold pyParseInt
  rw [hdata, hws1, hws2, List.reverse_reverse, hcons]
  have hcdig : isDigitChar c = true := hdig c (by rw [hcons]; simp)
  have hc48 : 48 ≤ c.toNat ∧ c.toNat ≤ 57 := by
    simpa [isDigitChar] using hcdig
  rw [pyParseIntTrimmed]
  rw [if_neg (by omega), if_neg (by omega)]
  have hpd : parseDigits (c :: ds) = some n := by
    unfold parseDigits
    rw [if_pos ⟨by simp, by rw [← hcons]; simpa [List.all_eq_true] using hdig⟩]
    rw [← hcons, digitsVal_decReprList]
  rw [hpd]
  rfl

theorem pyIntOfB64_roundtrip (n : Nat) :
    pyIntOfB64 (.vStr (pyB64EncodeStr (decRepr n))) = some (n : Int) := by
  show (pyB64DecodeBytes (pyB64Encode (utf8Encode (decRepr n)))).bind
    (fun bs => (utf8DecodeStr bs).bind pyParseInt) = some (n : Int)
  rw [pyB64DecodeBytes_pyB64Encode _ (utf8Encode_lt_256 _)]
  have hascii : ∀ c ∈ (decRepr n).data, c.toNat < 128 := by
    intro c hc
    have := (decReprList_digits n).2 c hc
    simp only [isDigitChar, Bool.and_eq_true, decide_eq_true_eq] at this
    omega
  have hdec : utf8DecodeStr (utf8Encode (decRepr n)) = some (decRepr n) := by
    unfold utf8DecodeStr utf8Encode
    rw [utf8Decode_utf8Encode_ascii _ hascii]
    rfl
  show (utf8DecodeStr (utf8Encode (decRepr n))).bind pyParseInt = some (n : Int)
  rw [hdec]
  show pyParseInt (decRepr n) = some (n : Int)
  exact pyParseInt_decRepr n

theorem step_crypto_boundary_eq (w : World) (ctx : Ctx) :
    step_crypto_boundary w ctx = (.failure, ctx) := rfl

theorem step_heartbeat_ctx (w : World) (ctx : Ctx) : (step_heartbeat w ctx).2 = ctx := by
  rcases hhb : w.heartbeatStatus with _ | code <;> simp [step_heartbeat, hhb]

theorem step_heartbeat_no_crash (w : World) (ctx : Ctx) :
    (step_heartbeat w ctx).1 ≠ .crash := by
  rcases hhb : w.heartbeatStatus with _ | code <;>
    simp [step_heartbeat, hhb]
  split <;> simp

theorem step_solve_math_spec (w : World) (ctx : Ctx) :
    step_solve_math w ctx = (.failure, ctx) ∨
      ∃ p : Int, step_solve_math w ctx = (.success, ctxSet ctx "math_proof" (.vInt p)) := by
  rcases h1 : (ctxGet ctx "c1").bind pyIntOfB64 with _ | c1 <;>
    rcases h2 : (ctxGet ctx "c2").bind pyIntOfB64 with _ | c2 <;>
      rcases h3 : (ctxGet ctx "c3").bind pyIntOfB64 with _ | c3 <;>
        simp [step_solve_math, h1, h2, h3]
  exact ⟨_, rfl⟩

theorem step_solve_math_no_crash (w : World) (ctx : Ctx) :
    (step_solve_math w ctx).1 ≠ .crash := by
  rcases step_solve_math_spec w ctx with h | ⟨p, h⟩ <;> simp [h]

theorem step_generate_fingerprints_eq (w : World) (ctx : Ctx) :
    step_generate_fingerprints w ctx =
      (.success,
        ctxSet (ctxSet (ctxSet ctx "webgl_vendor" (.vStr "Intel Inc."))
            "webgl_renderer" (.vStr "Intel Iris OpenGL Engine"))
          "canvas_fp" (.vStr canvasFpHex)) := rfl

theorem step_solve_sequence_no_crash (w : World) (ctx : Ctx) :
    (step_solve_sequence w ctx).1 ≠ .crash := by
  rcases hs : ctxGet ctx "seq" with _ | v
  · simp [step_solve_sequence, hs]
  · rcases v with s | n | xs
    · simp [step_solve_sequence, hs]
    · simp [step_solve_sequence, hs]
    · rcases hm : decodeSeq xs with _ | seq
      · simp [step_solve_sequence, hs, hm]
      · by_cases hl : 2 ≤ seq.length <;> simp [step_solve_sequence, hs, hm, hl]

theorem step_solve_sequence_failure_ctx (w : World) (ctx : Ctx)
    (h : (step_solve_sequence w ctx).1 = .failure) : (step_solve_sequence w ctx).2 = ctx := by
  rcases hs : ctxGet ctx "seq" with _ | v
  · simp [step_solve_sequence, hs]
  · rcases v with s | n | xs
    · simp [step_solve_sequence, hs]
    · simp [step_solve_sequence, hs]
    · rcases hm : decodeSeq xs with _ | seq
      · simp [step_solve_sequence, hs, hm]
      · by_cases hl : 2 ≤ seq.length
        · simp [step_solve_sequence, hs, hm, hl] at h
        · simp [step_solve_sequence, hs, hm, hl]

theorem step_solve_hash_chain_no_crash (w : World) (ctx : Ctx) :
    (step_solve_hash_chain w ctx).1 ≠ .crash := by
  rcases hs : ctxGet ctx "hc_s" with _ | v
  · simp [step_solve_hash_chain, hs]
  · rcases hi : ctxGet ctx "hc_i" with _ | vi
    · simp [step_solve_hash_chain, hs, hi]
    · rcases vi with s | n | xs
      · simp [step_solve_hash_chain, hs, hi]
      · by_cases hn : n ≤ 0
        · by_cases hsl : sliceableValue v = true <;>
            simp [step_solve_hash_chain, hs, hi, hn, hsl]
        · rcases v with s | m | xs <;> simp [step_solve_hash_chain, hs, hi, hn]
      · simp [step_solve_hash_chain, hs, hi]

theorem step_device_check_spec (w : World) (ctx : Ctx)
    (h1 : (ctxGet ctx "webgl_vendor").isSome) (h2 : (ctxGet ctx "webgl_renderer").isSome)
    (h3 : (ctxGet ctx "request_token").isSome) (h4 : (ctxGet ctx "math_proof").isSome)
    (h5 : (ctxGet ctx "canvas_fp").isSome)
    (hobj : ∀ v, w.devCheckResponse = some (.notObj v) →
      jsonTruthy (.notObj v) = false) :
    step_device_check w ctx = (.failure, ctx) ∨
      ∃ v, step_device_check w ctx = (.success, ctxSet ctx "v_token" v) := by
  obtain ⟨v1, e1⟩ := Option.isSome_iff_exists.mp h1
  obtain ⟨v2, e2⟩ := Option.isSome_iff_exists.mp h2
  obtain ⟨v3, e3⟩ := Option.isSome_iff_exists.mp h3
  obtain ⟨v4, e4⟩ := Option.isSome_iff_exists.mp h4
  obtain ⟨v5, e5⟩ := Option.isSome_iff_exists.mp h5
  rcases hr : w.devCheckResponse with _ | body
  · left; simp [step_device_check, e1, e2, e3, e4, e5, hr]
  · by_cases htr : jsonTruthy body = false
    · left; simp [step_device_check, e1, e2, e3, e4, e5, hr, htr]
    · rcases body with fields | v
      · right
        exact ⟨(ctxGet fields "v_token").getD (.vStr ""),
          by simp [step_device_check, e1, e2, e3, e4, e5, hr, htr]⟩
      · exact absurd (hobj v hr) htr

theorem step_device_check_notObj_crash (w : World) (ctx : Ctx) (v : Value)
    (h1 : (ctxGet ctx "webgl_vendor").isSome) (h2 : (ctxGet ctx "webgl_renderer").isSome)
    (h3 : (ctxGet ctx "request_token").isSome) (h4 : (ctxGet ctx "math_proof").isSome)
    (h5 : (ctxGet ctx "canvas_fp").isSome)
    (hb : w.devCheckResponse = some (.notObj v)) (ht : jsonTruthy (.notObj v) = true) :
    (step_device_check w ctx).1 = .crash := by
  obtain ⟨v1, e1⟩ := Option.isSome_iff_exists.mp h1
  obtain ⟨v2, e2⟩ := Option.isSome_iff_exists.mp h2
  obtain ⟨v3, e3⟩ := Option.isSome_iff_exists.mp h3
  obtain ⟨v4, e4⟩ := Option.isSome_iff_exists.mp h4
  obtain ⟨v5, e5⟩ := Option.isSome_iff_exists.mp h5
  simp [step_device_check, e1, e2, e3, e4, e5, hb, ht]

/-- The runner halts cleanly over any step list none of whose members can
crash from any context. -/
theorem runFrom_cleanExit_of_no_crash (w : World) :
    ∀ (steps : List (String × StepFn)) (ctx : Ctx) (c : Nat),
      (∀ p ∈ steps, ∀ ctx2, (p.2 w ctx2).1 ≠ .crash) →
      (runFrom w steps ctx c).cleanExit = true := by
  intro steps
  induction steps with
  | nil => intro ctx c _; rfl
  | cons p rest ih =>
      intro ctx c hp
      obtain ⟨name, f⟩ := p
      rcases hf : f w ctx with ⟨o, ctx'⟩
      cases o
      · simp only [runFrom, hf]
        exact ih ctx' (c + 1) (fun q hq => hp q (by simp [hq]))
      · simp [runFrom, hf]
      · exact absurd (show ((name, f).2 w ctx).1 = .crash by simp [hf])
          (hp (name, f) (by simp) ctx)

theorem runFrom_cleanExit_cons_success {w : World} {name : String} {f : StepFn}
    {rest : List (String × StepFn)} {ctx ctx' : Ctx} {c : Nat}
    (h : f w ctx = (.success, ctx')) :
    (runFrom w ((name, f) :: rest) ctx c).cleanExit =
      (runFrom w rest ctx' (c + 1)).cleanExit := by
  simp [runFrom, h]

theorem runFrom_cleanExit_cons_failure {w : World} {name : String} {f : StepFn}
    {rest : List (String × StepFn)} {ctx ctx' : Ctx} {c : Nat}
    (h : f w ctx = (.failure, ctx')) :
    (runFrom w ((name, f) :: rest) ctx c).cleanExit = true := by
  simp [runFrom, h]

/-- A run whose outcome list is k successes then one failure completed exactly
k steps and invoked exactly the first k+1 steps of the list. -/
theorem runFrom_first_failure (w : World) :
    ∀ (steps : List (String × StepFn)) (ctx : Ctx) (c k : Nat),
      (runFrom w steps ctx c).outcomes = List.replicate k .success ++ [.failure] →
      (runFrom w steps ctx c).completed = c + k ∧
      (runFrom w steps ctx c).executed = (steps.map Prod.fst).take (k + 1) := by
  intro steps
  induction steps with
  | nil =>
      intro ctx c k h
      have hlen := congrArg List.length h
      simp [runFrom] at hlen
  | cons p rest ih =>
      intro ctx c k h
      obtain ⟨name, f⟩ := p
      rcases hf : f w ctx with ⟨o, ctx'⟩
      cases o
      · simp only [runFrom, hf] at h ⊢
        cases k with
        | zero => simp at h
        | succ k' =>
            rw [List.replicate_succ, List.cons_append] at h
            simp only [List.cons.injEq, true_and] at h
            obtain ⟨hc, he⟩ := ih ctx' (c + 1) k' h
            refine ⟨?_, ?_⟩
            · rw [hc]; omega
            · simp [he]
      · simp only [runFrom, hf] at h ⊢
        cases k with
        | zero => simp
        | succ k' =>
            rw [List.replicate_succ, List.cons_append] at h
            simp at h
      · simp only [runFrom, hf] at h ⊢
        cases k with
        | zero => simp at h
        | succ k' =>
            rw [List.replicate_succ, List.cons_append] at h
            simp at h

/-- A run whose first k outcomes are successes agrees with the run of the
remaining steps from some intermediate context, with completed count shifted
by k. -/
theorem runFrom_success_prefix (w : World) :
    ∀ (k : Nat) (steps : List (String × StepFn)) (ctx : Ctx) (c : Nat),
      k ≤ steps.length →
      (runFrom w steps ctx c).outcomes.take k = List.replicate k .success →
      ∃ ctx2,
        (runFrom w steps ctx c).executed =
          (steps.map Prod.fst).take k ++ (runFrom w (steps.drop k) ctx2 (c + k)).executed ∧
        (runFrom w steps ctx c).outcomes =
          List.replicate k .success ++ (runFrom w (steps.drop k) ctx2 (c + k)).outcomes ∧
        (runFrom w steps ctx c).completed =
          (runFrom w (steps.drop k) ctx2 (c + k)).completed ∧
        (runFrom w steps ctx c).cleanExit =
          (runFrom w (steps.drop k) ctx2 (c + k)).cleanExit := by
  intro k
  induction k with
  | zero =>
      intro steps ctx c _ _
      refine ⟨ctx, ?_, ?_, ?_, ?_⟩ <;> simp
  | succ k' ih =>
      intro steps ctx c hk hout
      cases steps with
      | nil => simp at hk
      | cons p rest =>
          obtain ⟨name, f⟩ := p
          rcases hf : f w ctx with ⟨o, ctx'⟩
          cases o
          · simp only [runFrom, hf, List.take_succ_cons, List.replicate_succ,
              List.cons.injEq, true_and] at hout
            obtain ⟨ctx2, he, ho, hc, hcl⟩ :=
              ih rest ctx' (c + 1) (by simpa using hk) hout
            have hadd : c + 1 + k' = c + (k' + 1) := by omega
            rw [hadd] at he ho hc hcl
            refine ⟨ctx2, ?_, ?_, ?_, ?_⟩
            · simp only [runFrom, hf, List.map_cons, List.take_succ_cons,
                List.drop_succ_cons, List.cons_append]
              rw [he]
            · simp only [runFrom, hf, List.replicate_succ, List.drop_succ_cons,
                List.cons_append]
              rw [ho]
            · simp only [runFrom, hf, List.drop_succ_cons]
              rw [hc]
            · simp only [runFrom, hf, List.drop_succ_cons]
              rw [hcl]
          · simp only [runFrom, hf] at hout
            simp [List.replicate_succ] at hout
          · simp only [runFrom, hf] at hout
            simp [List.replicate_succ] at hout

theorem runFrom_cons_success_executed {w : World} {name : String} {f : StepFn}
    {rest : List (String × StepFn)} {ctx ctx' : Ctx} {c : Nat}
    (h : f w ctx = (.success, ctx')) :
    (runFrom w ((name, f) :: rest) ctx c).executed =
      name :: (runFrom w rest ctx' (c + 1)).executed := by
  simp [runFrom, h]

theorem runFrom_cons_executed_head (w : World) (name : String) (f : StepFn)
    (rest : List (String × StepFn)) (ctx : Ctx) (c : Nat) :
    ∃ tail, (runFrom w ((name, f) :: rest) ctx c).executed = name :: tail := by
  rcases hf : f w ctx with ⟨o, ctx'⟩
  cases o <;> simp [runFrom, hf]

/-- C5: for every seed string s and every natural number n, running the hash
chain for n iterations and then hashing the text of the previous hexadecimal
digest once more equals running the chain for n + 1 iterations. -/
theorem c5_hash_chain_iterate (s : String) (n : Nat) :
    sha256HexOfString (hashChainIter n s) = hashChainIter (n + 1) s := by
  induction n generalizing s with
  | zero => rfl
  | succ n ih => exact ih (sha256HexOfString s)

/-- C6: with a string seed under hc_s and an iteration count hc_i = 0, the
hash-chain step succeeds and stores the raw seed unchanged as hash_proof. -/
theorem c6_hash_chain_zero (w : World) (ctx : Ctx) (s : String)
    (hs : ctxGet ctx "hc_s" = some (.vStr s))
    (hi : ctxGet ctx "hc_i" = some (.vInt 0)) :
    step_solve_hash_chain w ctx = (.success, ctxSet ctx "hash_proof" (.vStr s)) := by
  simp [step_solve_hash_chain, hs, hi, sliceableValue]

theorem c6_hash_chain_zero_witness :
    step_solve_hash_chain wOffline ctxHashZero =
      (.success, ctxSet ctxHashZero "hash_proof" (.vStr "seed")) :=
  c6_hash_chain_zero wOffline ctxHashZero "seed" (by decide) (by decide)

/-- C7: the trace step reports success on every transport outcome and from
every context, so it never halts the pipeline, and every run invokes Trace
and then Init. -/
theorem c7_trace_never_blocks :
    (∀ (w : World) (ctx : Ctx), step_trace w ctx = (.success, ctx)) ∧
    (∀ w : World, (run w).executed.take 2 = ["Trace", "Init"]) := by
  refine ⟨step_trace_eq, ?_⟩
  intro w
  unfold run pipelineSteps
  rw [runFrom_cons_success_executed (step_trace_eq w [])]
  obtain ⟨tail, htail⟩ := runFrom_cons_executed_head w "Init" step_init _ [] 1
  rw [htail]
  rfl

/-- C10: neither the trace step nor the heartbeat step ever modifies the
session context, whatever the network outcome and whatever they report. -/
theorem c10_trace_heartbeat_frame (w : World) (ctx : Ctx) :
    (step_trace w ctx).2 = ctx ∧ (step_heartbeat w ctx).2 = ctx :=
  ⟨by rw [step_trace_eq], step_heartbeat_ctx w ctx⟩

/-- C3: with the decimal renderings of any three naturals stored
base64-encoded under c1, c2, c3, the math step succeeds and stores
math_proof = ((c1 * c2) + c3) % 1000; the step reads no network oracle; it
fails only when the decode-and-parse chain of one of the three values fails;
and a non-base64 c1 such as "AAA" fails deterministically. -/
theorem c3_math_challenge :
    (∀ (c1 c2 c3 : Nat) (w : World) (ctx : Ctx),
        ctxGet ctx "c1" = some (.vStr (pyB64EncodeStr (decRepr c1))) →
        ctxGet ctx "c2" = some (.vStr (pyB64EncodeStr (decRepr c2))) →
        ctxGet ctx "c3" = some (.vStr (pyB64EncodeStr (decRepr c3))) →
        step_solve_math w ctx =
          (.success, ctxSet ctx "math_proof"
            (.vInt (((c1 : Int) * (c2 : Int) + (c3 : Int)) % 1000)))) ∧
    (∀ (w w' : World) (ctx : Ctx), step_solve_math w ctx = step_solve_math w' ctx) ∧
    (∀ (w : World) (ctx : Ctx), (step_solve_math w ctx).1 = .failure →
        (ctxGet ctx "c1").bind pyIntOfB64 = none ∨
        (ctxGet ctx "c2").bind pyIntOfB64 = none ∨
        (ctxGet ctx "c3").bind pyIntOfB64 = none) ∧
    (∀ (w : World) (ctx : Ctx), ctxGet ctx "c1" = some (.vStr "AAA") →
        step_solve_math w ctx = (.failure, ctx)) := by
  refine ⟨?_, ?_, ?_, ?_⟩
  · intro c1 c2 c3 w ctx h1 h2 h3
    have e1 : (ctxGet ctx "c1").bind pyIntOfB64 = some (c1 : Int) := by
      rw [h1]; exact pyIntOfB64_roundtrip c1
    have e2 : (ctxGet ctx "c2").bind pyIntOfB64 = some (c2 : Int) := by
      rw [h2]; exact pyIntOfB64_roundtrip c2
    have e3 : (ctxGet ctx "c3").bind pyIntOfB64 = some (c3 : Int) := by
      rw [h3]; exact pyIntOfB64_roundtrip c3
    simp [step_solve_math, e1, e2, e3]
  · intro w w' ctx; rfl
  · intro w ctx h
    rcases h1 : (ctxGet ctx "c1").bind pyIntOfB64 with _ | c1
    · exact Or.inl rfl
    · rcases h2 : (ctxGet ctx "c2").bind pyIntOfB64 with _ | c2
      · exact Or.inr (Or.inl rfl)
      · rcases h3 : (ctxGet ctx "c3").bind pyIntOfB64 with _ | c3
        · exact Or.inr (Or.inr rfl)
        · simp [step_solve_math, h1, h2, h3] at h
  · intro w ctx h1
    have e1 : (ctxGet ctx "c1").bind pyIntOfB64 = none := by
      rw [h1]
      show pyIntOfB64 (.vStr "AAA") = none
      decide
    rcases h2 : (ctxGet ctx "c2").bind pyIntOfB64 with _ | c2 <;>
      rcases h3 : (ctxGet ctx "c3").bind pyIntOfB64 with _ | c3 <;>
        simp [step_solve_math, e1, h2, h3]

theorem c3_math_challenge_witness :
    step_solve_math wOffline ctxMath =
      (.success, ctxSet ctxMath "math_proof" (.vInt 14)) :=
  c3_math_challenge.1 2 3 8 wOffline ctxMath (by decide) (by decide) (by decide)

/-- C4: when the seq entry is a list of base64-encoded integers decoding to
ns, the sequence step succeeds for length at least two and stores
seq_proof = ns[len - 1] + ns[len - 2]; with fewer than two elements the
IndexError is caught inside the step and it reports failure with the context
unchanged, not an unguarded fault. -/
theorem c4_sequence_proof :
    (∀ (w : World) (ctx : Ctx) (xs : List Value) (ns : List Int),
        ctxGet ctx "seq" = some (.vList xs) → decodeSeq xs = some ns →
        2 ≤ ns.length →
        step_solve_sequence w ctx =
          (.success, ctxSet ctx "seq_proof"
            (.vInt (ns.getD (ns.length - 1) 0 + ns.getD (ns.length - 2) 0)))) ∧
    (∀ (w : World) (ctx : Ctx) (xs : List Value) (ns : List Int),
        ctxGet ctx "seq" = some (.vList xs) → decodeSeq xs = some ns →
        ns.length < 2 →
        step_solve_sequence w ctx = (.failure, ctx)) := by
  constructor
  · intro w ctx xs ns hs hd hl
    simp [step_solve_sequence, hs, hd, hl]
  · intro w ctx xs ns hs hd hl
    simp [step_solve_sequence, hs, hd, show ¬ 2 ≤ ns.length by omega]

theorem c4_sequence_proof_witness :
    step_solve_sequence wOffline ctxSeqTwo =
      (.success, ctxSet ctxSeqTwo "seq_proof" (.vInt 3)) ∧
    step_solve_sequence wOffline ctxSeqOne = (.failure, ctxSeqOne) :=
  ⟨c4_sequence_proof.1 wOffline ctxSeqTwo [.vStr "MQ==", .vStr "Mg=="] [1, 2]
      (by decide) (by decide) (by decide),
   c4_sequence_proof.2 wOffline ctxSeqOne [.vStr "MQ=="] [1]
      (by decide) (by decide) (by decide)⟩

/-- C1: whenever a step other than Trace reports failure after k successes
(the run outcome trace is k successes then the failure), the runner reports
exactly k completed steps and only the first k + 1 steps of the fixed order
were ever invoked. -/
theorem c1_first_failure_halts (w : World) (k : Nat) (hk : 1 ≤ k)
    (h : (run w).outcomes = List.replicate k .success ++ [.failure]) :
    (run w).completed = k ∧
    (run w).executed = (pipelineSteps.map Prod.fst).take (k + 1) := by
  have hmain := runFrom_first_failure w pipelineSteps [] 0 k h
  simpa using hmain

theorem c1_first_failure_halts_witness :
    (run wDevFail).completed = 4 ∧
    (run wDevFail).executed = (pipelineSteps.map Prod.fst).take 5 :=
  c1_first_failure_halts wDevFail 4 (by decide) (by decide)

/-- C8: the crypto-boundary step returns failure on every invocation, and
whenever the eight preceding steps all succeed the run halts at step nine
with exactly 8 completed of 9 steps; nothing runs after Crypto Boundary. -/
theorem c8_crypto_boundary :
    (∀ (w : World) (ctx : Ctx), (step_crypto_boundary w ctx).1 = .failure) ∧
    ∀ w : World, (run w).outcomes.take 8 = List.replicate 8 .success →
      (run w).completed = 8 ∧
      (run w).executed = pipelineSteps.map Prod.fst ∧
      (run w).outcomes = List.replicate 8 .success ++ [.failure] := by
  constructor
  · intro w ctx; rfl
  · intro w hout
    obtain ⟨ctx2, he, ho, hc, _⟩ :=
      runFrom_success_prefix w 8 pipelineSteps [] 0 (by simp [pipelineSteps]) hout
    have hdrop : pipelineSteps.drop 8 = [("Crypto Boundary", step_crypto_boundary)] := rfl
    rw [hdrop] at he ho hc
    have hlast : runFrom w [("Crypto Boundary", step_crypto_boundary)] ctx2 (0 + 8) =
        ⟨["Crypto Boundary"], [.failure], 8, true⟩ := by
      simp [runFrom, step_crypto_boundary]
    rw [hlast] at he ho hc
    refine ⟨by simpa using hc, ?_, by simpa using ho⟩
    rw [show (run w).executed = (runFrom w pipelineSteps [] 0).executed from rfl, he]
    rfl

theorem c8_crypto_boundary_witness :
    (run wAllOk).completed = 8 ∧
    (run wAllOk).executed = pipelineSteps.map Prod.fst ∧
    (run wAllOk).outcomes = List.replicate 8 .success ++ [.failure] :=
  c8_crypto_boundary.2 wAllOk (by decide)

theorem step_init_failure_ctx (w : World) (ctx : Ctx)
    (h : (step_init w ctx).1 = .failure) : (step_init w ctx).2 = ctx := by
  rcases hi : w.initResponse with _ | body
  · simp [step_init, hi]
  · by_cases htr : jsonTruthy body = false
    · simp [step_init, hi, htr]
    · rcases body with data | v
      · rcases hg : ctxGet (ctxUpdate ctx data) "session_id" with _ | sv <;>
          simp [step_init, hi, htr, hg] at h
      · simp [step_init, hi, htr] at h

theorem step_solve_math_failure_ctx (w : World) (ctx : Ctx)
    (h : (step_solve_math w ctx).1 = .failure) : (step_solve_math w ctx).2 = ctx := by
  rcases step_solve_math_spec w ctx with heq | ⟨p, heq⟩
  · rw [heq]
  · rw [heq] at h; simp at h

theorem step_device_check_failure_ctx (w : World) (ctx : Ctx)
    (h : (step_device_check w ctx).1 = .failure) : (step_device_check w ctx).2 = ctx := by
  rcases e1 : ctxGet ctx "webgl_vendor" with _ | v1
  · simp [step_device_check, e1] at h
  · rcases e2 : ctxGet ctx "webgl_renderer" with _ | v2
    · simp [step_device_check, e1, e2] at h
    · rcases e3 : ctxGet ctx "request_token" with _ | v3
      · simp [step_device_check, e1, e2, e3] at h
      · rcases e4 : ctxGet ctx "math_proof" with _ | v4
        · simp [step_device_check, e1, e2, e3, e4] at h
        · rcases e5 : ctxGet ctx "canvas_fp" with _ | v5
          · simp [step_device_check, e1, e2, e3, e4, e5] at h
          · rcases hr : w.devCheckResponse with _ | body
            · simp [step_device_check, e1, e2, e3, e4, e5, hr]
            · by_cases htr : jsonTruthy body = false
              · simp [step_device_check, e1, e2, e3, e4, e5, hr, htr]
              · rcases body with fields | v <;>
                  simp [step_device_check, e1, e2, e3, e4, e5, hr, htr] at h

theorem step_solve_hash_chain_failure_frame (w : World) (ctx : Ctx)
    (h : (step_solve_hash_chain w ctx).1 = .failure) :
    (step_solve_hash_chain w ctx).2 = ctx ∨
      ∃ v, ∃ n : Int, ctxGet ctx "hc_s" = some v ∧ sliceableValue v = false ∧
        ctxGet ctx "hc_i" = some (.vInt n) ∧ n ≤ 0 ∧
        (step_solve_hash_chain w ctx).2 = ctxSet ctx "hash_proof" v := by
  rcases hs : ctxGet ctx "hc_s" with _ | v
  · left; simp [step_solve_hash_chain, hs]
  · rcases hi : ctxGet ctx "hc_i" with _ | vi
    · left; simp [step_solve_hash_chain, hs, hi]
    · rcases vi with s | n | xs
      · left; simp [step_solve_hash_chain, hs, hi]
      · by_cases hn : n ≤ 0
        · by_cases hsl : sliceableValue v = true
          · simp [step_solve_hash_chain, hs, hi, hn, hsl] at h
          · right
            exact ⟨v, n, rfl, by simpa using hsl, rfl, hn,
              by simp [step_solve_hash_chain, hs, hi, hn]⟩
        · rcases v with s | m | xs
          · simp [step_solve_hash_chain, hs, hi, hn] at h
          · left; simp [step_solve_hash_chain, hs, hi, hn]
          · left; simp [step_solve_hash_chain, hs, hi, hn]
      · left; simp [step_solve_hash_chain, hs, hi]

/-- C9, counterexample to the claim as stated: with hc_s an integer and
hc_i = 0, the hash-chain step stores hash_proof and then reports failure when
the success log slices the integer seed, so a failing step has modified the
context. -/
theorem c9_counterexample :
    (step_solve_hash_chain wOffline ctxHashQuirk).1 = .failure ∧
    (step_solve_hash_chain wOffline ctxHashQuirk).2 ≠ ctxHashQuirk := by
  decide

/-- C9 as amended: every step that reports failure leaves the context exactly
as it was, except the Hash Chain step in one corner: a stored seed that is
not sliceable (an integer) together with an integer iteration count of at
most zero makes it store hash_proof = seed and then fail. -/
theorem c9_failure_frame_amended (i : Nat) (hi : i < pipelineSteps.length)
    (w : World) (ctx : Ctx)
    (h : ((pipelineSteps.get ⟨i, hi⟩).2 w ctx).1 = .failure) :
    ((pipelineSteps.get ⟨i, hi⟩).2 w ctx).2 = ctx ∨
      ((pipelineSteps.get ⟨i, hi⟩).1 = "Hash Chain" ∧
        ∃ v, ∃ n : Int, ctxGet ctx "hc_s" = some v ∧ sliceableValue v = false ∧
          ctxGet ctx "hc_i" = some (.vInt n) ∧ n ≤ 0 ∧
          ((pipelineSteps.get ⟨i, hi⟩).2 w ctx).2 = ctxSet ctx "hash_proof" v) := by
  have hlen : i < 9 := by simpa [pipelineSteps] using hi
  interval_cases i
  · have h0 : (step_trace w ctx).1 = .failure := h
    rw [step_trace_eq] at h0
    simp at h0
  · exact Or.inl (step_init_failure_ctx w ctx h)
  · exact Or.inl (step_solve_math_failure_ctx w ctx h)
  · have h3 : (step_generate_fingerprints w ctx).1 = .failure := h
    rw [step_generate_fingerprints_eq] at h3
    simp at h3
  · exact Or.inl (step_device_check_failure_ctx w ctx h)
  · exact Or.inl (step_heartbeat_ctx w ctx)
  · exact Or.inl (step_solve_sequence_failure_ctx w ctx h)
  · rcases step_solve_hash_chain_failure_frame w ctx h with hctx | hspec
    · exact Or.inl hctx
    · exact Or.inr ⟨rfl, hspec⟩
  · exact Or.inl rfl

theorem c9_failure_frame_amended_witness :
    ((pipelineSteps.get ⟨5, by decide⟩).2 wOffline []).2 = ([] : Ctx) ∨
      ((pipelineSteps.get ⟨5, by decide⟩).1 = "Hash Chain" ∧
        ∃ v, ∃ n : Int, ctxGet [] "hc_s" = some v ∧ sliceableValue v = false ∧
          ctxGet [] "hc_i" = some (.vInt n) ∧ n ≤ 0 ∧
          ((pipelineSteps.get ⟨5, by decide⟩).2 wOffline []).2 =
            ctxSet [] "hash_proof" v) :=
  c9_failure_frame_amended 5 (by decide) wOffline [] (by decide)

/-- C2, counterexample to the claim as stated: a non-empty init response
object without a session_id key makes the success log of step_init raise
KeyError out of the step, and a 200 device-check response whose JSON body is
the truthy non-object array [1] makes result.get raise AttributeError after
four successful steps; in both worlds run() aborts without printing the
summary. -/
theorem c2_counterexample :
    ((run wNoSession).outcomes = [.success, .crash] ∧
      (run wNoSession).cleanExit = false) ∧
    ((run wListBody).outcomes =
        [.success, .success, .success, .success, .crash] ∧
      (run wListBody).cleanExit = false) := by
  decide

/-- C2 as amended: every step except Init and Device Check turns every error
into a boolean failure return.  Init raises out of the method when a truthy
init body is not a JSON object (update raises) or is an object lacking
session_id (the success log raises KeyError after the update); Device Check
raises when the context lacks one of its five payload keys (reachable
exactly when the init object lacks request_token) or when a truthy
device-check body is not a JSON object, where result.get raises
AttributeError even on a 200 response.  Provided every truthy init response
is an object carrying both session_id and request_token and every truthy
device-check response body is an object, run() terminates cleanly and prints
the summary. -/
theorem c2_errors_amended :
    (∀ (w : World) (ctx : Ctx),
        (step_trace w ctx).1 ≠ .crash ∧ (step_solve_math w ctx).1 ≠ .crash ∧
        (step_generate_fingerprints w ctx).1 ≠ .crash ∧
        (step_heartbeat w ctx).1 ≠ .crash ∧ (step_solve_sequence w ctx).1 ≠ .crash ∧
        (step_solve_hash_chain w ctx).1 ≠ .crash ∧
        (step_crypto_boundary w ctx).1 ≠ .crash) ∧
    (∀ (w : World) (ctx : Ctx) (v : Value),
        (ctxGet ctx "webgl_vendor").isSome → (ctxGet ctx "webgl_renderer").isSome →
        (ctxGet ctx "request_token").isSome → (ctxGet ctx "math_proof").isSome →
        (ctxGet ctx "canvas_fp").isSome →
        w.devCheckResponse = some (.notObj v) → jsonTruthy (.notObj v) = true →
        (step_device_check w ctx).1 = .crash) ∧
    ∀ w : World,
      (∀ d, w.initResponse = some (.obj d) → jsonTruthy (.obj d) = true →
        (ctxGet d "session_id").isSome ∧ (ctxGet d "request_token").isSome) →
      (∀ v, w.initResponse = some (.notObj v) → jsonTruthy (.notObj v) = false) →
      (∀ v, w.devCheckResponse = some (.notObj v) → jsonTruthy (.notObj v) = false) →
      (run w).cleanExit = true := by
  refine ⟨?_, ?_, ?_⟩
  · intro w ctx
    refine ⟨?_, step_solve_math_no_crash w ctx, ?_, step_heartbeat_no_crash w ctx,
      step_solve_sequence_no_crash w ctx, step_solve_hash_chain_no_crash w ctx, ?_⟩
    · rw [step_trace_eq]; simp
    · rw [step_generate_fingerprints_eq]; simp
    · simp [step_crypto_boundary]
  · intro w ctx v h1 h2 h3 h4 h5 hb ht
    exact step_device_check_notObj_crash w ctx v h1 h2 h3 h4 h5 hb ht
  · intro w hw hwInit hwDev
    unfold run pipelineSteps
    rw [runFrom_cleanExit_cons_success (step_trace_eq w [])]
    rcases hi : w.initResponse with _ | body
    · rw [runFrom_cleanExit_cons_failure
        (show step_init w [] = (.failure, []) by simp [step_init, hi])]
    · by_cases htr : jsonTruthy body = false
      · rw [runFrom_cleanExit_cons_failure
          (show step_init w [] = (.failure, []) by simp [step_init, hi, htr])]
      · rcases body with data | v
        swap
        · exact absurd (hwInit v hi) htr
        have htr2 : jsonTruthy (.obj data) = true := by simpa using htr
        obtain ⟨hsid, hrt⟩ := hw data hi htr2
        obtain ⟨sv, hsv⟩ := Option.isSome_iff_exists.mp
          (ctxUpdate_isSome_of_key data [] _ hsid)
        rw [runFrom_cleanExit_cons_success
          (show step_init w [] = (.success, ctxUpdate [] data) by
            simp [step_init, hi, htr2, hsv])]
        have hrt1 : (ctxGet (ctxUpdate [] data) "request_token").isSome :=
          ctxUpdate_isSome_of_key data [] _ hrt
        rcases step_solve_math_spec w (ctxUpdate [] data) with h3 | ⟨p, h3⟩
        · rw [runFrom_cleanExit_cons_failure h3]
        · rw [runFrom_cleanExit_cons_success h3]
          rw [runFrom_cleanExit_cons_success (step_generate_fingerprints_eq w _)]
          have p5 : (ctxGet (ctxSet (ctxSet (ctxSet
              (ctxSet (ctxUpdate [] data) "math_proof" (.vInt p))
              "webgl_vendor" (.vStr "Intel Inc."))
              "webgl_renderer" (.vStr "Intel Iris OpenGL Engine"))
              "canvas_fp" (.vStr canvasFpHex)) "canvas_fp").isSome := by
            rw [ctxGet_ctxSet_self]; rfl
          have p2 : (ctxGet (ctxSet (ctxSet (ctxSet
              (ctxSet (ctxUpdate [] data) "math_proof" (.vInt p))
              "webgl_vendor" (.vStr "Intel Inc."))
              "webgl_renderer" (.vStr "Intel Iris OpenGL Engine"))
              "canvas_fp" (.vStr canvasFpHex)) "webgl_renderer").isSome := by
            rw [ctxGet_ctxSet_ne _ _ _ _ (by decide), ctxGet_ctxSet_self]; rfl
          have p1 : (ctxGet (ctxSet (ctxSet (ctxSet
              (ctxSet (ctxUpdate [] data) "math_proof" (.vInt p))
              "webgl_vendor" (.vStr "Intel Inc."))
              "webgl_renderer" (.vStr "Intel Iris OpenGL Engine"))
              "canvas_fp" (.vStr canvasFpHex)) "webgl_vendor").isSome := by
            rw [ctxGet_ctxSet_ne _ _ _ _ (by decide), ctxGet_ctxSet_ne _ _ _ _ (by decide),
              ctxGet_ctxSet_self]
            rfl
          have p4 : (ctxGet (ctxSet (ctxSet (ctxSet
              (ctxSet (ctxUpdate [] data) "math_proof" (.vInt p))
              "webgl_vendor" (.vStr "Intel Inc."))
              "webgl_renderer" (.vStr "Intel Iris OpenGL Engine"))
              "canvas_fp" (.vStr canvasFpHex)) "math_proof").isSome := by
            rw [ctxGet_ctxSet_ne _ _ _ _ (by decide), ctxGet_ctxSet_ne _ _ _ _ (by decide),
              ctxGet_ctxSet_ne _ _ _ _ (by decide), ctxGet_ctxSet_self]
            rfl
          have p3 : (ctxGet (ctxSet (ctxSet (ctxSet
              (ctxSet (ctxUpdate [] data) "math_proof" (.vInt p))
              "webgl_vendor" (.vStr "Intel Inc."))
              "webgl_renderer" (.vStr "Intel Iris OpenGL Engine"))
              "canvas_fp" (.vStr canvasFpHex)) "request_token").isSome :=
            ctxSet_isSome _ _ _ _ (ctxSet_isSome _ _ _ _ (ctxSet_isSome _ _ _ _
              (ctxSet_isSome _ _ _ _ hrt1)))
          rcases step_device_check_spec w _ p1 p2 p3 p4 p5 hwDev with h5 | ⟨v, h5⟩
          · rw [runFrom_cleanExit_cons_failure h5]
          · rw [runFrom_cleanExit_cons_success h5]
            apply runFrom_cleanExit_of_no_crash
            intro q hq ctx4
            simp only [List.mem_cons, List.not_mem_nil, or_false] at hq
            rcases hq with rfl | rfl | rfl | rfl
            · exact step_heartbeat_no_crash w ctx4
            · exact step_solve_sequence_no_crash w ctx4
            · exact step_solve_hash_chain_no_crash w ctx4
            · simp [step_crypto_boundary]

theorem c2_errors_amended_witness : (run wAllOk).cleanExit = true :=
  c2_errors_amended.2.2 wAllOk
    (by
      intro d hd htr
      simp only [wAllOk, Option.some.injEq, JsonBody.obj.injEq] at hd
      subst hd
      exact ⟨by decide, by decide⟩)
    (by
      intro v hv
      simp [wAllOk] at hv)
    (by
      intro v hv
      simp [wAllOk] at hv)
